import Mathlib

/-!
Verification development for the arkworks_backend bridge: a shallow embedding
of the gate extraction, witness binding, opcode counting and constraint
synthesis code, together with theorems about the claims of the specification.
-/

set_option autoImplicit false

namespace ArkworksBackend

/-- Association-list lookup with exact key match. This models lookups into the
BTreeMap and HashMap containers used by the source (values, witness_map,
already_assigned_witnesses): the first entry whose key equals the requested
key is returned, none if no entry matches. -/
def alist_find {α : Type} (k : ℕ) : List (ℕ × α) → Option α
  | [] => none
  | e :: rest => if e.1 = k then some e.2 else alist_find k rest

/-- Modelling the ark_relations r1cs Variable enum, restricted to the
constructors this code ever produces: the fixed One variable and allocated
witness handles (numbered in allocation order). -/
inductive Variable where
  | one : Variable
  | witness (idx : ℕ) : Variable
deriving DecidableEq

/-- Modelling ark_relations LinearCombination: a formal sum of coefficient
times variable terms, kept as the list of terms in the order they were added. -/
abbrev LinearCombination (F : Type) := List (F × Variable)

/-- Modelling the mutable arkworks ConstraintSystem as far as this code
touches it: the list of seeded witness-variable values (in allocation order)
and the list of enforced constraints, each a triple of linear combinations
a, b, c standing for the R1CS constraint a * b = c. -/
structure ConstraintSystem (F : Type) where
  witness_assignment : List F
  constraints : List (LinearCombination F × LinearCombination F × LinearCombination F)
deriving DecidableEq

/-- Modelling ConstraintSystem::new_ref(): an empty constraint system. -/
def ConstraintSystem.new (F : Type) : ConstraintSystem F :=
  { witness_assignment := [], constraints := [] }

/-- Modelling cs.new_witness_variable(value): appends the value to the witness
assignment and returns the handle of the freshly allocated witness variable.
With an Ok-returning closure this call cannot fail in the source, so it is
total here. -/
def new_witness_variable {F : Type} (cs : ConstraintSystem F) (value : F) :
    Variable × ConstraintSystem F :=
  (Variable.witness cs.witness_assignment.length,
   { witness_assignment := cs.witness_assignment ++ [value],
     constraints := cs.constraints })

/-- Modelling cs.enforce_constraint(a, b, c): appends one constraint. -/
def enforce_constraint {F : Type} (cs : ConstraintSystem F)
    (a b c : LinearCombination F) : ConstraintSystem F :=
  { witness_assignment := cs.witness_assignment,
    constraints := cs.constraints ++ [(a, b, c)] }

/-- Modelling ark_r1cs_std FpVar: either a constant or an allocated variable
(the AllocatedFp case, of which we keep the underlying Variable handle). -/
inductive FpVar (F : Type) where
  | Constant (c : F) : FpVar F
  | Var (v : Variable) : FpVar F
deriving DecidableEq

/-- Modelling FpVar::new_witness(cs, value): allocates a fresh witness
variable seeded with the value and wraps its handle in the Var constructor. -/
def FpVar.new_witness {F : Type} (cs : ConstraintSystem F) (value : F) :
    FpVar F × ConstraintSystem F :=
  let p := new_witness_variable cs value
  (FpVar.Var p.1, p.2)

/-- Modelling ark_relations SynthesisError, restricted to the variants this
code can produce or mention. -/
inductive SynthesisError where
  | AssignmentMissing : SynthesisError
  | Unsatisfiable : SynthesisError
deriving DecidableEq

/-- The AcirArithGate structure of the bridge module: multiplication terms
(coefficient, left witness, right witness), linear terms
(coefficient, witness), and a constant term, all with prover-side
field coefficients. Witness indices are kept as plain naturals. -/
structure AcirArithGate (F : Type) where
  mul_terms : List (F × ℕ × ℕ)
  add_terms : List (F × ℕ)
  constant_term : F
deriving DecidableEq

/-- The AcirCircuitSonobe structure of sonobe_bridge.rs. The values field
models the BTreeMap from Witness to field value as an association list in
ascending key order (the order the BTreeMap iterates in); the
already_assigned_witnesses field models the HashMap alias map. -/
structure AcirCircuitSonobe (F : Type) where
  gates : List (AcirArithGate F)
  public_inputs : List ℕ
  values : List (ℕ × F)
  already_assigned_witnesses : List (ℕ × FpVar F)
deriving DecidableEq

/-- The variable-allocation pass of generate_constraints: for each values
entry in order, either resolve the alias (failing with Unsatisfiable when the
aliased FpVar is not the Var constructor) or allocate a fresh witness
variable seeded with the bound value; the branch on public-input membership
is kept although both of its arms allocate identically, as in the source. -/
def allocate_witnesses {F : Type} (pub : List ℕ) (aliases : List (ℕ × FpVar F)) :
    List (ℕ × F) → ConstraintSystem F →
    Except SynthesisError (List Variable × ConstraintSystem F)
  | [], cs => .ok ([], cs)
  | e :: rest, cs =>
    match alist_find e.1 aliases with
    | some (FpVar.Var v) =>
      match allocate_witnesses pub aliases rest cs with
      | .ok (vars, cs1) => .ok (v :: vars, cs1)
      | .error er => .error er
    | some (FpVar.Constant _) => .error SynthesisError.Unsatisfiable
    | none =>
      let p := if e.1 ∈ pub then new_witness_variable cs e.2
               else new_witness_variable cs e.2
      match allocate_witnesses pub aliases rest p.2 with
      | .ok (vars, cs1) => .ok (p.1 :: vars, cs1)
      | .error er => .error er

/-- The multiplication-term loop of a single gate: each term looks up the two
operand values (an absent key is a BTreeMap index panic, modelled as none),
allocates a fresh witness seeded with their product through FpVar.new_witness,
and, when the returned FpVar is the Var constructor, appends coefficient
times that variable to the accumulator, exactly as the source does. -/
def process_mul_terms {F : Type} [Mul F] (values : List (ℕ × F)) :
    List (F × ℕ × ℕ) → LinearCombination F → ConstraintSystem F →
    Option (LinearCombination F × ConstraintSystem F)
  | [], acc, cs => some (acc, cs)
  | t :: rest, acc, cs =>
    match alist_find t.2.1 values, alist_find t.2.2 values with
    | some left_val, some right_val =>
      let out_val := left_val * right_val
      let p := FpVar.new_witness cs out_val
      match p.1 with
      | FpVar.Var v => process_mul_terms values rest (acc ++ [(t.1, v)]) p.2
      | FpVar.Constant _ => process_mul_terms values rest acc p.2
    | _, _ => none

/-- The linear-term loop of a single gate: each term indexes the dense
per-witness handle table by the witness index (an out-of-bounds index is a Vec index
panic, modelled as none) and appends coefficient times that handle. -/
def process_add_terms {F : Type} (vartab : List Variable) :
    List (F × ℕ) → LinearCombination F → Option (LinearCombination F)
  | [], acc => some acc
  | t :: rest, acc =>
    match vartab[t.2]? with
    | some v => process_add_terms vartab rest (acc ++ [(t.1, v)])
    | none => none

/-- The gate-emission pass of generate_constraints: for each gate in order,
build the accumulator from the multiplication terms, then the linear terms,
then the constant term against the fixed One variable, and enforce the
constraint One * accumulator = zero (an empty linear combination). -/
def process_gates {F : Type} [Mul F] [One F] (values : List (ℕ × F))
    (vartab : List Variable) :
    List (AcirArithGate F) → ConstraintSystem F → Option (ConstraintSystem F)
  | [], cs => some cs
  | gate :: rest, cs =>
    match process_mul_terms values gate.mul_terms [] cs with
    | none => none
    | some (acc1, cs1) =>
      match process_add_terms vartab gate.add_terms acc1 with
      | none => none
      | some acc2 =>
        let acc3 := acc2 ++ [(gate.constant_term, Variable.one)]
        let cs2 := enforce_constraint cs1 [((1 : F), Variable.one)] acc3 []
        process_gates values vartab rest cs2

/-- The possible outcomes of running generate_constraints: a normal Ok return
with the final constraint system, an Err return, or a Rust panic (from the
unguarded BTreeMap and Vec indexing in the gate-emission pass). -/
inductive SynthOutcome (F : Type) where
  | ok (cs : ConstraintSystem F) : SynthOutcome F
  | err (e : SynthesisError) : SynthOutcome F
  | panicked : SynthOutcome F
deriving DecidableEq

/-- AcirCircuitSonobe::generate_constraints from sonobe_bridge.rs: run the
variable-allocation pass, then the gate-emission pass. -/
def generate_constraints {F : Type} [Mul F] [One F]
    (circ : AcirCircuitSonobe F) (cs : ConstraintSystem F) : SynthOutcome F :=
  match allocate_witnesses circ.public_inputs circ.already_assigned_witnesses
      circ.values cs with
  | .error e => .err e
  | .ok (vartab, cs1) =>
    match process_gates circ.values vartab circ.gates cs1 with
    | none => .panicked
    | some cs2 => .ok cs2

/-- Evaluation of a constraint-system variable under the seeded witness
assignment: One evaluates to the field unit, an allocated witness variable to
its seeded value. -/
def eval_variable {F : Type} [One F] [Zero F] (assignment : List F) :
    Variable → F
  | Variable.one => 1
  | Variable.witness i => assignment.getD i 0

/-- Evaluation of a linear combination under the seeded witness assignment. -/
def eval_lincomb {F : Type} [One F] [Zero F] [Mul F] [Add F]
    (assignment : List F) (lc : LinearCombination F) : F :=
  (lc.map (fun t => t.1 * eval_variable assignment t.2)).sum

/-- Modelling cs.is_satisfied(): every enforced constraint a * b = c holds
under the seeded witness assignment. -/
def is_satisfied {F : Type} [One F] [Zero F] [Mul F] [Add F]
    (cs : ConstraintSystem F) : Prop :=
  ∀ t ∈ cs.constraints,
    eval_lincomb cs.witness_assignment t.1 * eval_lincomb cs.witness_assignment t.2.1
      = eval_lincomb cs.witness_assignment t.2.2

/-- Modelling the acvm GenericFieldElement wrapper: the compiler-side
encoding of a prover-side field element value. -/
structure GenericFieldElement (F : Type) where
  inner : F
deriving DecidableEq

/-- Modelling GenericFieldElement::into_repr(): unwrap to the prover-side
field element. -/
def into_repr {F : Type} (x : GenericFieldElement F) : F := x.inner

/-- Modelling the acir Expression: multiplication terms, linear combinations
and a constant, with compiler-side coefficients and witness indices kept as
plain naturals. -/
structure Expression (F : Type) where
  mul_terms : List (F × ℕ × ℕ)
  linear_combinations : List (F × ℕ)
  q_c : F
deriving DecidableEq

/-- Modelling Expression::num_mul_terms(). -/
def Expression.num_mul_terms {F : Type} (e : Expression F) : ℕ :=
  e.mul_terms.length

/-- Modelling the acir Opcode enum as used by this code: AssertZero and
Directive are handled, and every other acvm opcode kind (black-box calls,
memory operations, Brillig calls, ...) is collapsed into one unsupported
constructor since the code treats them all by a single wildcard arm. -/
inductive Opcode (F : Type) where
  | AssertZero (e : Expression F) : Opcode F
  | Directive : Opcode F
  | Other : Opcode F
deriving DecidableEq

/-- Modelling the acir Circuit as far as this code reads it: the highest
witness index, the ordered opcode list, and the declared public parameter and
return-value index sets. -/
structure Circuit (F : Type) where
  current_witness_index : ℕ
  opcodes : List (Opcode F)
  public_parameters : List ℕ
  return_values : List ℕ
deriving DecidableEq

/-- Modelling Circuit::num_vars(): one more than the highest witness index. -/
def Circuit.num_vars {F : Type} (c : Circuit F) : ℕ :=
  c.current_witness_index + 1

/-- Modelling Circuit::public_inputs(): the union of the public parameters
and the return values, as a list whose membership is the union. -/
def Circuit.public_inputs {F : Type} (c : Circuit F) : List ℕ :=
  c.public_parameters ++ c.return_values

/-- The Expression to AcirArithGate conversion of serializer.rs: every
coefficient and the constant go through into_repr, witness indices are kept. -/
def AcirArithGate.of_expression {F : Type}
    (arith_gate : Expression (GenericFieldElement F)) : AcirArithGate F :=
  { mul_terms := arith_gate.mul_terms.map (fun t => (into_repr t.1, t.2.1, t.2.2)),
    add_terms := arith_gate.linear_combinations.map (fun t => (into_repr t.1, t.2)),
    constant_term := into_repr arith_gate.q_c }

/-- The gate-extraction step of the Circuit to AcirCircuit conversion in
serializer.rs: a filter_map keeping one converted gate per AssertZero opcode
and dropping every other opcode. -/
def extract_gates {F : Type}
    (opcodes : List (Opcode (GenericFieldElement F))) : List (AcirArithGate F) :=
  opcodes.filterMap (fun opcode =>
    match opcode with
    | Opcode.AssertZero code => some (AcirArithGate.of_expression code)
    | _ => none)

/-- The witness-binding step of the Circuit to AcirCircuit conversion in
serializer.rs: for every witness index below the variable count, take the
solved value converted through into_repr when the witness map has one, and
the field zero otherwise. -/
def bind_witness_values {F : Type} [Zero F] (num_variables : ℕ)
    (witness_map : List (ℕ × GenericFieldElement F)) : List (ℕ × F) :=
  (List.range num_variables).map (fun witness_index =>
    (witness_index,
     ((alist_find witness_index witness_map).map into_repr).getD 0))

/-- The AcirCircuit structure of the bridge module. -/
structure AcirCircuit (F : Type) where
  gates : List (AcirArithGate F)
  values : List (ℕ × F)
  public_inputs : List ℕ
deriving DecidableEq

/-- The Circuit plus WitnessMap to AcirCircuit conversion of serializer.rs. -/
def AcirCircuit.of_circuit {F : Type} [Zero F]
    (circuit : Circuit (GenericFieldElement F))
    (witness_map : List (ℕ × GenericFieldElement F)) : AcirCircuit F :=
  { gates := extract_gates circuit.opcodes,
    values := bind_witness_values circuit.num_vars witness_map,
    public_inputs := circuit.public_inputs }

/-- The Circuit plus WitnessMap to AcirCircuitSonobe conversion of
serializer.rs: build the AcirCircuit and start with an empty alias map. -/
def AcirCircuitSonobe.of_circuit {F : Type} [Zero F]
    (circuit : Circuit (GenericFieldElement F))
    (witness_map : List (ℕ × GenericFieldElement F)) : AcirCircuitSonobe F :=
  { gates := (AcirCircuit.of_circuit circuit witness_map).gates,
    public_inputs := (AcirCircuit.of_circuit circuit witness_map).public_inputs,
    values := (AcirCircuit.of_circuit circuit witness_map).values,
    already_assigned_witnesses := [] }

/-- The loop of compute_num_opcodes in lib.rs, threading the running count:
an AssertZero opcode adds its number of multiplication terms plus one, a
Directive adds nothing, and any other opcode hits the unreachable macro,
which is a panic, modelled as none. -/
def compute_num_opcodes_loop {F : Type} :
    List (Opcode F) → ℕ → Option ℕ
  | [], n => some n
  | Opcode.AssertZero arith :: rest, n =>
    compute_num_opcodes_loop rest (n + arith.num_mul_terms + 1)
  | Opcode.Directive :: rest, n => compute_num_opcodes_loop rest n
  | Opcode.Other :: _, _ => none

/-- compute_num_opcodes from lib.rs: start from the length of the opcode
list, run the loop, and truncate the final usize count to u32 by the closing
cast. -/
def compute_num_opcodes {F : Type} (acir : Circuit F) : Option ℕ :=
  (compute_num_opcodes_loop acir.opcodes acir.opcodes.length).map
    (fun n => n % 2 ^ 32)

/-- Modelled from the spec: the FieldConverter direction from a compiler-side
field element to the prover-side representation, going through the canonical
integer representative in the interval from zero to the field order. The
concrete conversion code (concrete_cfg.rs with from_fe, and the acvm side of
the encodings) is not part of the available sources, so the two encodings are
modelled as Fin p (compiler side) and ZMod p (prover side). -/
def toProverField (p : ℕ) (x : Fin p) : ZMod p :=
  ((x : Fin p).val : ZMod p)

/-- Modelled from the spec: the FieldConverter direction from a prover-side
field element back to the compiler-side representation, again through the
canonical integer representative. -/
def toCompilerField (p : ℕ) [NeZero p] (y : ZMod p) : Fin p :=
  ⟨y.val, ZMod.val_lt y⟩

/-- The accumulator contribution of the multiplication terms as the claim
describes it: the j-th multiplication term contributes its coefficient times
the j-th freshly allocated auxiliary witness variable, counting from the
given allocation base. Stated from the claim, for comparison with the code. -/
def claimed_mul_lincomb {F : Type} (base : ℕ) :
    List (F × ℕ × ℕ) → LinearCombination F
  | [] => []
  | t :: rest => (t.1, Variable.witness base) :: claimed_mul_lincomb (base + 1) rest

/-- The seeded values of the auxiliary variables as the claim describes them:
one numeric product of the two bound operand values per multiplication term.
Stated from the claim, for comparison with the code. -/
def claimed_mul_values {F : Type} [Mul F] [Zero F] (values : List (ℕ × F))
    (ms : List (F × ℕ × ℕ)) : List F :=
  ms.map (fun t => (alist_find t.2.1 values).getD 0 * (alist_find t.2.2 values).getD 0)

/-- The accumulator contribution of the linear terms as the claim describes
it: each term contributes its coefficient times the handle recorded for its
witness index in the handle table. Stated from the claim, for comparison with
the code. -/
def claimed_add_lincomb {F : Type} (vartab : List Variable)
    (ts : List (F × ℕ)) : LinearCombination F :=
  ts.map (fun t => (t.1, (vartab[t.2]?).getD Variable.one))

/-- One gate of the claim: seed one auxiliary variable per multiplication
term with the numeric product, and add the single constraint
One times accumulator equals zero, where the accumulator is the
multiplication contribution, then the linear contribution, then the constant
term times the fixed One variable. Stated from the claim, for comparison
with the code. -/
def claimed_gate_step {F : Type} [Mul F] [Zero F] [One F]
    (values : List (ℕ × F)) (vartab : List Variable)
    (cs : ConstraintSystem F) (gate : AcirArithGate F) : ConstraintSystem F :=
  { witness_assignment :=
      cs.witness_assignment ++ claimed_mul_values values gate.mul_terms,
    constraints := cs.constraints ++
      [([((1 : F), Variable.one)],
        claimed_mul_lincomb cs.witness_assignment.length gate.mul_terms
          ++ claimed_add_lincomb vartab gate.add_terms
          ++ [(gate.constant_term, Variable.one)],
        [])] }

/-- The per-opcode contribution to the count returned by compute_num_opcodes
as the claim states it: the number of multiplication terms plus one for an
AssertZero opcode, and zero for a Directive. Stated from the claim, for
comparison with the code. -/
def claimed_opcode_contribution {F : Type} : Opcode F → ℕ
  | Opcode.AssertZero e => e.num_mul_terms + 1
  | Opcode.Directive => 0
  | Opcode.Other => 0

/-- The per-opcode contribution the code actually makes to the count returned
by compute_num_opcodes: every opcode is counted once by the initial length,
and an AssertZero opcode adds its number of multiplication terms plus one on
top of that, so it contributes that number plus two in total while a
Directive contributes one. The unsupported case is arbitrary since the count
is only returned for circuits without unsupported opcodes. -/
def code_opcode_contribution {F : Type} : Opcode F → ℕ
  | Opcode.AssertZero e => e.num_mul_terms + 2
  | Opcode.Directive => 1
  | Opcode.Other => 0

/-- The expressions of the AssertZero opcodes of a list, in order. -/
def assert_zero_expressions {F : Type} (opcodes : List (Opcode F)) :
    List (Expression F) :=
  opcodes.filterMap (fun opcode =>
    match opcode with
    | Opcode.AssertZero e => some e
    | _ => none)

/-- Whether an opcode is an AssertZero opcode. -/
def is_assert_zero {F : Type} : Opcode F → Bool
  | Opcode.AssertZero _ => true
  | _ => false

/-- The bridge circuit of the simple_equal test of lib.rs: one gate asserting
that the values bound to witness indices zero and one are equal, with no
aliases and no public inputs. -/
def equality_circuit {F : Type} [One F] [Neg F] [Zero F] (va vb : F) :
    AcirCircuitSonobe F :=
  { gates := [⟨[], [((1 : F), 0), ((-1 : F), 1)], (0 : F)⟩],
    public_inputs := [],
    values := [(0, va), (1, vb)],
    already_assigned_witnesses := [] }

/-- A concrete circuit used to exercise the theorems: one gate with one
multiplication term and one linear term over the integers. -/
def mul_example_circuit : AcirCircuitSonobe ℤ :=
  { gates := [⟨[((2 : ℤ), 0, 1)], [((3 : ℤ), 0)], (5 : ℤ)⟩],
    public_inputs := [],
    values := [(0, (6 : ℤ)), (1, (7 : ℤ))],
    already_assigned_witnesses := [] }

/-- A concrete circuit whose single gate references witness index five while
only one witness value is bound: its linear-term lookup indexes the handle
table out of bounds. -/
def out_of_range_circuit : AcirCircuitSonobe ℤ :=
  { gates := [⟨[], [((1 : ℤ), 5)], (0 : ℤ)⟩],
    public_inputs := [],
    values := [(0, (0 : ℤ))],
    already_assigned_witnesses := [] }

/-- A concrete bridge whose alias entry for witness index zero is a constant
FpVar rather than an allocated variable. -/
def constant_alias_circuit : AcirCircuitSonobe ℤ :=
  { gates := [],
    public_inputs := [],
    values := [(0, (4 : ℤ))],
    already_assigned_witnesses := [(0, FpVar.Constant (4 : ℤ))] }

/-- A concrete bridge whose alias entry for witness index zero is a genuine
allocated variable handle. -/
def var_alias_circuit : AcirCircuitSonobe ℤ :=
  { gates := [],
    public_inputs := [],
    values := [(0, (4 : ℤ)), (1, (9 : ℤ))],
    already_assigned_witnesses := [(0, FpVar.Var (Variable.witness 17))] }

/-- A concrete compiler-side circuit consisting of exactly one unsupported
opcode. -/
def unsupported_only_circuit : Circuit (GenericFieldElement ℤ) :=
  { current_witness_index := 0,
    opcodes := [Opcode.Other],
    public_parameters := [],
    return_values := [] }

/-- A concrete compiler-side circuit consisting of exactly one Directive
opcode. -/
def directive_only_circuit : Circuit ℤ :=
  { current_witness_index := 0,
    opcodes := [Opcode.Directive],
    public_parameters := [],
    return_values := [] }

/-- A concrete circuit with one AssertZero opcode with two multiplication
terms and one Directive, used to exercise the opcode-count theorem. -/
def counting_example_circuit : Circuit ℤ :=
  { current_witness_index := 2,
    opcodes := [Opcode.AssertZero ⟨[((1 : ℤ), 0, 1), ((2 : ℤ), 1, 2)], [], (0 : ℤ)⟩,
                Opcode.Directive],
    public_parameters := [],
    return_values := [] }

/-- A concrete partial witness map binding only indices one and three, as in
the totality example of the specification. -/
def partial_witness_map : List (ℕ × GenericFieldElement ℤ) :=
  [(1, ⟨(6 : ℤ)⟩), (3, ⟨(7 : ℤ)⟩)]

/-- A concrete compiler-side circuit with one AssertZero opcode between two
Directive opcodes, used to exercise the extraction-order theorem. -/
def mixed_supported_circuit : Circuit (GenericFieldElement ℤ) :=
  { current_witness_index := 1,
    opcodes := [Opcode.Directive,
                Opcode.AssertZero ⟨[], [(⟨(1 : ℤ)⟩, 0)], ⟨(2 : ℤ)⟩⟩,
                Opcode.Directive],
    public_parameters := [],
    return_values := [] }

theorem alist_find_append_of_some {α : Type} {k : ℕ} {l1 l2 : List (ℕ × α)}
    {v : α} (h : alist_find k l1 = some v) : alist_find k (l1 ++ l2) = some v := by
  induction l1 with
  | nil => simp [alist_find] at h
  | cons e rest ih =>
    by_cases he : e.1 = k
    · simpa [alist_find, he] using h
    · rw [List.cons_append, alist_find, if_neg he]
      rw [alist_find, if_neg he] at h
      exact ih h

theorem alist_find_append_of_none {α : Type} {k : ℕ} {l1 l2 : List (ℕ × α)}
    (h : alist_find k l1 = none) : alist_find k (l1 ++ l2) = alist_find k l2 := by
  induction l1 with
  | nil => simp
  | cons e rest ih =>
    by_cases he : e.1 = k
    · simp [alist_find, he] at h
    · rw [List.cons_append, alist_find, if_neg he]
      rw [alist_find, if_neg he] at h
      exact ih h

theorem alist_find_eq_none_of_keys {α : Type} {k : ℕ} {l : List (ℕ × α)}
    (h : ∀ e ∈ l, e.1 ≠ k) : alist_find k l = none := by
  induction l with
  | nil => rfl
  | cons e rest ih =>
    rw [alist_find, if_neg (h e (by simp))]
    exact ih (fun x hx => h x (by simp [hx]))

theorem alist_find_isSome_of_mem_keys {α : Type} {k : ℕ} {l : List (ℕ × α)}
    (h : k ∈ l.map Prod.fst) : (alist_find k l).isSome := by
  induction l with
  | nil => simp at h
  | cons e rest ih =>
    by_cases he : e.1 = k
    · simp [alist_find, he]
    · rw [alist_find, if_neg he]
      refine ih ?_
      rcases List.mem_map.mp h with ⟨x, hx, hxk⟩
      rcases List.mem_cons.mp hx with hx | hx
      · exact absurd (hx ▸ hxk) he
      · exact List.mem_map.mpr ⟨x, hx, hxk⟩

theorem alist_find_range_map {α : Type} (g : ℕ → α) :
    ∀ (N i : ℕ), i < N →
      alist_find i ((List.range N).map (fun j => (j, g j))) = some (g i) := by
  intro N
  induction N with
  | zero => intro i h; omega
  | succ n ih =>
    intro i h
    rw [List.range_succ, List.map_append]
    by_cases hi : i < n
    · exact alist_find_append_of_some (ih i hi)
    · have hin : i = n := by omega
      subst hin
      rw [alist_find_append_of_none]
      · simp [alist_find]
      · refine alist_find_eq_none_of_keys ?_
        intro e he
        rcases List.mem_map.mp he with ⟨j, hj, rfl⟩
        have := List.mem_range.mp hj
        omega

/-- Claim C4: for every variable count and every possibly partial witness
map, the witness-binding step produces a values table with exactly one entry
for each witness index below the count (the keys are exactly the range, in
order), and the entry of each such index is the mapped value when the witness
map contains the index and zero otherwise; the binding step is a total
function and never fails. -/
theorem bind_witness_values_total {F : Type} [Zero F] (N : ℕ)
    (witness_map : List (ℕ × GenericFieldElement F)) :
    ((bind_witness_values N witness_map).map Prod.fst = List.range N) ∧
    (∀ i, i < N →
      alist_find i (bind_witness_values N witness_map)
        = some (((alist_find i witness_map).map into_repr).getD 0)) := by
  constructor
  · simp [bind_witness_values, Function.comp_def]
  · intro i hi
    exact alist_find_range_map _ N i hi

/-- Witness for claim C4, at the instance of the specification: five
variables, a witness map binding only indices one and three; the unbound
index two is bound to zero and the bound index three keeps its value. -/
theorem bind_witness_values_total_witness :
    alist_find 2 (bind_witness_values 5 partial_witness_map) = some (0 : ℤ) ∧
    alist_find 3 (bind_witness_values 5 partial_witness_map) = some (7 : ℤ) ∧
    (bind_witness_values 5 partial_witness_map).map Prod.fst = List.range 5 := by
  refine ⟨?_, ?_, (bind_witness_values_total 5 partial_witness_map).1⟩
  · simpa using (bind_witness_values_total 5 partial_witness_map).2 2 (by omega)
  · simpa [partial_witness_map, alist_find, into_repr] using
      (bind_witness_values_total 5 partial_witness_map).2 3 (by omega)

/-- Counterexample for claim C2: a circuit consisting of exactly one
unsupported opcode is converted successfully by the Circuit to AcirCircuit
conversion, which is a total function: it returns a normal AcirCircuit with
zero gates instead of failing with an UnsupportedOpcode error. -/
theorem extraction_succeeds_on_unsupported :
    AcirCircuit.of_circuit unsupported_only_circuit []
      = { gates := [], values := [(0, (0 : ℤ))], public_inputs := [] } := by
  rfl

/-- Claim C2 as amended: the gate extraction of serializer.rs never fails;
an opcode that is neither AssertZero nor Directive is silently skipped and
contributes zero gates, so extracting a circuit with an unsupported opcode
inserted anywhere yields exactly the gates of the circuit without it. -/
theorem extract_gates_skips_unsupported {F : Type}
    (ops1 ops2 : List (Opcode (GenericFieldElement F))) :
    extract_gates (ops1 ++ Opcode.Other :: ops2) = extract_gates (ops1 ++ ops2) := by
  simp [extract_gates, List.filterMap_append, List.filterMap_cons]

/-- Counterexample for claim C3: for the accepted circuit consisting of one
Directive opcode, compute_num_opcodes returns one, while the claimed
per-opcode contributions (zero for a Directive) sum to zero, so the returned
count is not the sum of the claimed contributions. -/
theorem compute_num_opcodes_directive_counts_one :
    compute_num_opcodes directive_only_circuit = some 1 ∧
    (directive_only_circuit.opcodes.map claimed_opcode_contribution).sum = 0 := by
  constructor <;> rfl

theorem compute_num_opcodes_loop_spec {F : Type} :
    ∀ (ops : List (Opcode F)) (acc m : ℕ),
      compute_num_opcodes_loop ops acc = some m →
      m + ops.length = acc + (ops.map code_opcode_contribution).sum := by
  intro ops
  induction ops with
  | nil =>
    intro acc m h
    simp [compute_num_opcodes_loop] at h
    simp [h]
  | cons op rest ih =>
    intro acc m h
    cases op with
    | AssertZero e =>
      have := ih (acc + e.num_mul_terms + 1) m h
      simp [code_opcode_contribution]
      omega
    | Directive =>
      have := ih acc m h
      simp [code_opcode_contribution]
      omega
    | Other => simp [compute_num_opcodes_loop] at h

/-- Claim C3 as amended: for every circuit accepted by compute_num_opcodes,
the returned count is the sum, truncated to thirty-two bits by the final
cast, of per-opcode contributions in which an AssertZero opcode with k
multiplication terms contributes k plus two (once in the base opcode count
and k plus one more in the loop) and a Directive opcode contributes one (its
base count only). -/
theorem compute_num_opcodes_contribution {F : Type} (acir : Circuit F)
    (n : ℕ) (h : compute_num_opcodes acir = some n) :
    n = (acir.opcodes.map code_opcode_contribution).sum % 2 ^ 32 := by
  unfold compute_num_opcodes at h
  cases hl : compute_num_opcodes_loop acir.opcodes acir.opcodes.length with
  | none => rw [hl] at h; simp at h
  | some m =>
    rw [hl] at h
    simp at h
    have := compute_num_opcodes_loop_spec acir.opcodes acir.opcodes.length m hl
    have hm : m = (acir.opcodes.map code_opcode_contribution).sum := by omega
    omega

/-- Witness for claim C3 as amended: a circuit with one AssertZero opcode
with two multiplication terms and one Directive is counted as five, which is
the sum four plus one of the code contributions. -/
theorem compute_num_opcodes_contribution_witness :
    (5 : ℕ) = (counting_example_circuit.opcodes.map code_opcode_contribution).sum % 2 ^ 32 :=
  compute_num_opcodes_contribution counting_example_circuit 5 (by decide)

/-- Claim C9: for every circuit whose opcodes are only AssertZero and
Directive, gate extraction produces exactly the converted expressions of the
AssertZero opcodes in their original order, hence one gate per AssertZero
opcode in the same relative order and zero gates per Directive. -/
theorem extraction_one_gate_per_assert_zero {F : Type} [Zero F]
    (circuit : Circuit (GenericFieldElement F))
    (witness_map : List (ℕ × GenericFieldElement F))
    (h : Opcode.Other ∉ circuit.opcodes) :
    (AcirCircuit.of_circuit circuit witness_map).gates
      = (assert_zero_expressions circuit.opcodes).map AcirArithGate.of_expression
    ∧ (AcirCircuit.of_circuit circuit witness_map).gates.length
      = (circuit.opcodes.filter is_assert_zero).length := by
  have main : ∀ (ops : List (Opcode (GenericFieldElement F))),
      extract_gates ops = (assert_zero_expressions ops).map AcirArithGate.of_expression
      ∧ (extract_gates (F := F) ops).length = (ops.filter is_assert_zero).length := by
    intro ops
    induction ops with
    | nil => simp [extract_gates, assert_zero_expressions]
    | cons op rest ih =>
      cases op with
      | AssertZero e =>
        simp [extract_gates, assert_zero_expressions, is_assert_zero,
          List.filterMap_cons, List.filter_cons] at ih ⊢
        exact ih
      | Directive =>
        simpa [extract_gates, assert_zero_expressions, is_assert_zero,
          List.filterMap_cons, List.filter_cons] using ih
      | Other =>
        simpa [extract_gates, assert_zero_expressions, is_assert_zero,
          List.filterMap_cons, List.filter_cons] using ih
  exact main circuit.opcodes

/-- Witness for claim C9: a circuit with one AssertZero opcode between two
Directives extracts to exactly one gate, the conversion of that opcode, and
the filtered AssertZero count is one. -/
theorem extraction_one_gate_per_assert_zero_witness :
    (AcirCircuit.of_circuit mixed_supported_circuit []).gates
      = (assert_zero_expressions mixed_supported_circuit.opcodes).map
          AcirArithGate.of_expression
    ∧ (AcirCircuit.of_circuit mixed_supported_circuit []).gates.length
      = (mixed_supported_circuit.opcodes.filter is_assert_zero).length :=
  extraction_one_gate_per_assert_zero mixed_supported_circuit [] (by decide)

/-- Claim C8: converting a compiler-side field element to the prover-side
representation and back through the canonical integer representative yields
the element again, and symmetrically for prover-side elements. Stated over
the spec-modelled converter, since the concrete conversion code is outside
the available sources. -/
theorem field_conversion_roundtrip :
    ∀ (p : ℕ) [NeZero p],
      (∀ x : Fin p, toCompilerField p (toProverField p x) = x) ∧
      (∀ y : ZMod p, toProverField p (toCompilerField p y) = y) := by
  intro p _
  constructor
  · intro x
    apply Fin.ext
    simp [toProverField, toCompilerField, ZMod.val_natCast, Nat.mod_eq_of_lt x.isLt]
  · intro y
    simpa [toProverField, toCompilerField] using ZMod.natCast_rightInverse y

/-- Witness for claim C8 at the modulus five: the element three survives the
round trip in both directions. -/
theorem field_conversion_roundtrip_witness :
    toCompilerField 5 (toProverField 5 (3 : Fin 5)) = (3 : Fin 5) ∧
    toProverField 5 (toCompilerField 5 (3 : ZMod 5)) = (3 : ZMod 5) :=
  ⟨(field_conversion_roundtrip 5).1 3, (field_conversion_roundtrip 5).2 3⟩

theorem allocate_witnesses_cons_var {F : Type} {pub : List ℕ}
    {aliases : List (ℕ × FpVar F)} {e : ℕ × F} {rest : List (ℕ × F)}
    {cs : ConstraintSystem F} {v : Variable}
    (h : alist_find e.1 aliases = some (FpVar.Var v)) :
    allocate_witnesses pub aliases (e :: rest) cs =
      match allocate_witnesses pub aliases rest cs with
      | .ok (vars, cs1) => .ok (v :: vars, cs1)
      | .error er => .error er := by
  rw [allocate_witnesses, h]

theorem allocate_witnesses_cons_const {F : Type} {pub : List ℕ}
    {aliases : List (ℕ × FpVar F)} {e : ℕ × F} {rest : List (ℕ × F)}
    {cs : ConstraintSystem F} {c : F}
    (h : alist_find e.1 aliases = some (FpVar.Constant c)) :
    allocate_witnesses pub aliases (e :: rest) cs
      = .error SynthesisError.Unsatisfiable := by
  rw [allocate_witnesses, h]

theorem allocate_witnesses_cons_fresh {F : Type} {pub : List ℕ}
    {aliases : List (ℕ × FpVar F)} {e : ℕ × F} {rest : List (ℕ × F)}
    {cs : ConstraintSystem F}
    (h : alist_find e.1 aliases = none) :
    allocate_witnesses pub aliases (e :: rest) cs =
      match allocate_witnesses pub aliases rest (new_witness_variable cs e.2).2 with
      | .ok (vars, cs1) => .ok ((new_witness_variable cs e.2).1 :: vars, cs1)
      | .error er => .error er := by
  rw [allocate_witnesses, h]
  simp only [ite_self]

theorem allocate_witnesses_ok_facts {F : Type} (pub : List ℕ)
    (aliases : List (ℕ × FpVar F)) :
    ∀ (values : List (ℕ × F)) (cs : ConstraintSystem F)
      (vars : List Variable) (cs1 : ConstraintSystem F),
      allocate_witnesses pub aliases values cs = .ok (vars, cs1) →
      vars.length = values.length ∧ cs1.constraints = cs.constraints := by
  intro values
  induction values with
  | nil =>
    intro cs vars cs1 h
    rw [allocate_witnesses] at h
    cases h
    simp
  | cons e rest ih =>
    intro cs vars cs1 h
    cases ha : alist_find e.1 aliases with
    | none =>
      rw [allocate_witnesses_cons_fresh ha] at h
      cases hrec : allocate_witnesses pub aliases rest (new_witness_variable cs e.2).2 with
      | ok p =>
        rw [hrec] at h
        cases h
        have := ih (new_witness_variable cs e.2).2 p.1 p.2 (by rw [hrec])
        simp [new_witness_variable] at this ⊢
        exact this
      | error er => rw [hrec] at h; cases h
    | some fv =>
      cases fv with
      | Var v =>
        rw [allocate_witnesses_cons_var ha] at h
        cases hrec : allocate_witnesses pub aliases rest cs with
        | ok p =>
          rw [hrec] at h
          cases h
          have := ih cs p.1 p.2 (by rw [hrec])
          simp at this ⊢
          exact this
        | error er => rw [hrec] at h; cases h
      | Constant c =>
        rw [allocate_witnesses_cons_const ha] at h
        cases h

theorem allocate_witnesses_error_of_constant_alias {F : Type} (pub : List ℕ)
    (aliases : List (ℕ × FpVar F)) :
    ∀ (values : List (ℕ × F)) (cs : ConstraintSystem F),
      (∃ e ∈ values, ∃ c, alist_find e.1 aliases = some (FpVar.Constant c)) →
      allocate_witnesses pub aliases values cs
        = .error SynthesisError.Unsatisfiable := by
  intro values
  induction values with
  | nil => intro cs h; simp at h
  | cons e rest ih =>
    intro cs h
    rcases h with ⟨x, hx, c, hbad⟩
    rcases List.mem_cons.mp hx with rfl | hx
    · cases ha : alist_find x.1 aliases with
      | none => rw [ha] at hbad; cases hbad
      | some fv =>
        cases fv with
        | Constant d => exact allocate_witnesses_cons_const ha
        | Var v => rw [ha] at hbad; cases hbad
    · cases ha : alist_find e.1 aliases with
      | none =>
        rw [allocate_witnesses_cons_fresh ha,
          ih (new_witness_variable cs e.2).2 ⟨x, hx, c, hbad⟩]
      | some fv =>
        cases fv with
        | Constant d => exact allocate_witnesses_cons_const ha
        | Var v => rw [allocate_witnesses_cons_var ha, ih cs ⟨x, hx, c, hbad⟩]

theorem allocate_witnesses_ok_of_var_aliases {F : Type} (pub : List ℕ)
    (aliases : List (ℕ × FpVar F)) :
    ∀ (values : List (ℕ × F)) (cs : ConstraintSystem F),
      (∀ e ∈ values, ∀ fv, alist_find e.1 aliases = some fv → ∃ v, fv = FpVar.Var v) →
      ∃ vars cs1,
        allocate_witnesses pub aliases values cs = .ok (vars, cs1) ∧
        vars.length = values.length ∧
        cs1.witness_assignment.length = cs.witness_assignment.length +
          (values.filter (fun e => (alist_find e.1 aliases).isNone)).length ∧
        (∀ (j i : ℕ) (val : F) (v : Variable), values[j]? = some (i, val) →
          alist_find i aliases = some (FpVar.Var v) → vars[j]? = some v) := by
  intro values
  induction values with
  | nil =>
    intro cs _
    refine ⟨[], cs, ?_, by simp, by simp, ?_⟩
    · rw [allocate_witnesses]
    · intro j i val v hj
      simp at hj
  | cons e rest ih =>
    intro cs hgood
    cases ha : alist_find e.1 aliases with
    | none =>
      obtain ⟨vars, cs1, hrec, hlen, hwa, hpos⟩ :=
        ih (new_witness_variable cs e.2).2
          (fun x hx fv hfv => hgood x (List.mem_cons_of_mem e hx) fv hfv)
      refine ⟨(new_witness_variable cs e.2).1 :: vars, cs1, ?_, by simp [hlen], ?_, ?_⟩
      · rw [allocate_witnesses_cons_fresh ha, hrec]
      · simp [new_witness_variable] at hwa ⊢
        rw [List.filter_cons_of_pos (by simp [ha])]
        simp
        omega
      · intro j i val v hj hv
        cases j with
        | zero =>
          simp at hj
          simp [hj] at ha
          rw [ha] at hv
          cases hv
        | succ n =>
          simp at hj ⊢
          exact hpos n i val v hj hv
    | some fv =>
      obtain ⟨w, rfl⟩ := hgood e (List.mem_cons_self e rest) fv ha
      obtain ⟨vars, cs1, hrec, hlen, hwa, hpos⟩ :=
        ih cs (fun x hx fv hfv => hgood x (List.mem_cons_of_mem e hx) fv hfv)
      refine ⟨w :: vars, cs1, ?_, by simp [hlen], ?_, ?_⟩
      · rw [allocate_witnesses_cons_var ha, hrec]
      · rw [List.filter_cons_of_neg (by simp [ha])]
        exact hwa
      · intro j i val v hj hv
        cases j with
        | zero =>
          simp at hj
          simp [hj] at ha
          rw [ha] at hv
          simp at hv
          simp [hv]
        | succ n =>
          simp at hj ⊢
          exact hpos n i val v hj hv

/-- Claim C5: a bridge whose values contain a witness index whose alias entry
is not the Var constructor makes generate_constraints return an error
(Unsatisfiable) instead of continuing; and when every alias entry that can be
hit is an allocated variable, the allocation pass succeeds, every aliased
index resolves to the underlying variable handle recorded in the alias map,
and fresh variables are allocated only for the non-aliased indices. -/
theorem alias_resolution {F : Type} [CommRing F] (circ : AcirCircuitSonobe F)
    (cs : ConstraintSystem F) :
    ((∃ e ∈ circ.values, ∃ c,
        alist_find e.1 circ.already_assigned_witnesses = some (FpVar.Constant c)) →
      generate_constraints circ cs = SynthOutcome.err SynthesisError.Unsatisfiable)
    ∧ ((∀ e ∈ circ.values, ∀ fv,
          alist_find e.1 circ.already_assigned_witnesses = some fv →
          ∃ v, fv = FpVar.Var v) →
        ∃ vars cs1,
          allocate_witnesses circ.public_inputs circ.already_assigned_witnesses
            circ.values cs = .ok (vars, cs1) ∧
          vars.length = circ.values.length ∧
          cs1.witness_assignment.length = cs.witness_assignment.length +
            (circ.values.filter
              (fun e => (alist_find e.1 circ.already_assigned_witnesses).isNone)).length ∧
          (∀ (j i : ℕ) (val : F) (v : Variable), circ.values[j]? = some (i, val) →
            alist_find i circ.already_assigned_witnesses = some (FpVar.Var v) →
            vars[j]? = some v)) := by
  constructor
  · intro hbad
    rw [generate_constraints,
      allocate_witnesses_error_of_constant_alias circ.public_inputs
        circ.already_assigned_witnesses circ.values cs hbad]
  · intro hgood
    exact allocate_witnesses_ok_of_var_aliases circ.public_inputs
      circ.already_assigned_witnesses circ.values cs hgood

theorem allocate_witnesses_pub_independent {F : Type} (pub1 pub2 : List ℕ)
    (aliases : List (ℕ × FpVar F)) :
    ∀ (values : List (ℕ × F)) (cs : ConstraintSystem F),
      allocate_witnesses pub1 aliases values cs
        = allocate_witnesses pub2 aliases values cs := by
  intro values
  induction values with
  | nil => intro cs; rw [allocate_witnesses, allocate_witnesses]
  | cons e rest ih =>
    intro cs
    cases ha : alist_find e.1 aliases with
    | none =>
      rw [allocate_witnesses_cons_fresh ha, allocate_witnesses_cons_fresh ha,
        ih (new_witness_variable cs e.2).2]
    | some fv =>
      cases fv with
      | Constant c =>
        rw [allocate_witnesses_cons_const ha, allocate_witnesses_cons_const ha]
      | Var v =>
        rw [allocate_witnesses_cons_var ha, allocate_witnesses_cons_var ha, ih cs]

/-- Claim C7: a non-aliased witness index is allocated by the same
new_witness_variable call whether or not it belongs to the public-inputs set,
always yielding a general witness-type handle; consequently, running
generate_constraints on two bridges that differ only in their public_inputs
set produces identical outcomes, constraint systems included. -/
theorem public_inputs_do_not_affect_synthesis {F : Type} [CommRing F]
    (gates : List (AcirArithGate F)) (pub1 pub2 : List ℕ)
    (values : List (ℕ × F)) (aliases : List (ℕ × FpVar F))
    (cs : ConstraintSystem F) :
    generate_constraints ⟨gates, pub1, values, aliases⟩ cs
      = generate_constraints ⟨gates, pub2, values, aliases⟩ cs
    ∧ ∀ (pub : List ℕ) (i : ℕ) (val : F) (cs0 : ConstraintSystem F),
        (if i ∈ pub then new_witness_variable cs0 val
         else new_witness_variable cs0 val) = new_witness_variable cs0 val
        ∧ (new_witness_variable cs0 val).1
            = Variable.witness cs0.witness_assignment.length := by
  constructor
  · rw [generate_constraints, generate_constraints]
    rw [show (⟨gates, pub1, values, aliases⟩ : AcirCircuitSonobe F).public_inputs
      = pub1 from rfl]
    rw [show (⟨gates, pub2, values, aliases⟩ : AcirCircuitSonobe F).public_inputs
      = pub2 from rfl]
    rw [allocate_witnesses_pub_independent pub1 pub2 aliases values cs]
  · intro pub i val cs0
    exact ⟨ite_self _, rfl⟩

theorem process_mul_terms_cons_some {F : Type} [Mul F] {values : List (ℕ × F)}
    {t : F × ℕ × ℕ} {rest : List (F × ℕ × ℕ)} {acc : LinearCombination F}
    {cs : ConstraintSystem F} {lv rv : F}
    (hl : alist_find t.2.1 values = some lv)
    (hr : alist_find t.2.2 values = some rv) :
    process_mul_terms values (t :: rest) acc cs =
      process_mul_terms values rest
        (acc ++ [(t.1, Variable.witness cs.witness_assignment.length)])
        ⟨cs.witness_assignment ++ [lv * rv], cs.constraints⟩ := by
  rw [process_mul_terms, hl, hr]
  rfl

theorem process_mul_terms_cons_left_none {F : Type} [Mul F]
    {values : List (ℕ × F)} {t : F × ℕ × ℕ} {rest : List (F × ℕ × ℕ)}
    {acc : LinearCombination F} {cs : ConstraintSystem F}
    (hl : alist_find t.2.1 values = none) :
    process_mul_terms values (t :: rest) acc cs = none := by
  rw [process_mul_terms, hl]

theorem process_mul_terms_cons_right_none {F : Type} [Mul F]
    {values : List (ℕ × F)} {t : F × ℕ × ℕ} {rest : List (F × ℕ × ℕ)}
    {acc : LinearCombination F} {cs : ConstraintSystem F} {lv : F}
    (hl : alist_find t.2.1 values = some lv)
    (hr : alist_find t.2.2 values = none) :
    process_mul_terms values (t :: rest) acc cs = none := by
  rw [process_mul_terms, hl, hr]

theorem process_add_terms_cons_some {F : Type} {vartab : List Variable}
    {t : F × ℕ} {rest : List (F × ℕ)} {acc : LinearCombination F} {v : Variable}
    (hv : vartab[t.2]? = some v) :
    process_add_terms vartab (t :: rest) acc
      = process_add_terms vartab rest (acc ++ [(t.1, v)]) := by
  rw [process_add_terms, hv]

theorem process_add_terms_cons_none {F : Type} {vartab : List Variable}
    {t : F × ℕ} {rest : List (F × ℕ)} {acc : LinearCombination F}
    (hv : vartab[t.2]? = none) :
    process_add_terms vartab (t :: rest) acc = none := by
  rw [process_add_terms, hv]

theorem process_mul_terms_spec {F : Type} [CommRing F] (values : List (ℕ × F)) :
    ∀ (ms : List (F × ℕ × ℕ)) (acc : LinearCombination F)
      (cs : ConstraintSystem F) (lc : LinearCombination F)
      (cs' : ConstraintSystem F),
      process_mul_terms values ms acc cs = some (lc, cs') →
      lc = acc ++ claimed_mul_lincomb cs.witness_assignment.length ms ∧
      cs' = ⟨cs.witness_assignment ++ claimed_mul_values values ms, cs.constraints⟩ := by
  intro ms
  induction ms with
  | nil =>
    intro acc cs lc cs' h
    rw [process_mul_terms] at h
    cases h
    constructor
    · simp [claimed_mul_lincomb]
    · simp [claimed_mul_values]
  | cons t rest ih =>
    intro acc cs lc cs' h
    cases hl : alist_find t.2.1 values with
    | none => rw [process_mul_terms_cons_left_none hl] at h; cases h
    | some lv =>
      cases hr : alist_find t.2.2 values with
      | none => rw [process_mul_terms_cons_right_none hl hr] at h; cases h
      | some rv =>
        rw [process_mul_terms_cons_some hl hr] at h
        obtain ⟨h1, h2⟩ := ih _ _ _ _ h
        constructor
        · rw [h1]
          simp [claimed_mul_lincomb, List.append_assoc]
        · rw [h2]
          simp [claimed_mul_values, hl, hr]

theorem process_add_terms_spec {F : Type} (vartab : List Variable) :
    ∀ (ts : List (F × ℕ)) (acc lc : LinearCombination F),
      process_add_terms vartab ts acc = some lc →
      lc = acc ++ claimed_add_lincomb vartab ts := by
  intro ts
  induction ts with
  | nil =>
    intro acc lc h
    rw [process_add_terms] at h
    cases h
    simp [claimed_add_lincomb]
  | cons t rest ih =>
    intro acc lc h
    cases hv : vartab[t.2]? with
    | none => rw [process_add_terms_cons_none hv] at h; cases h
    | some v =>
      rw [process_add_terms_cons_some hv] at h
      rw [ih _ _ h]
      simp [claimed_add_lincomb, hv, List.append_assoc]

theorem process_gates_spec {F : Type} [CommRing F] (values : List (ℕ × F))
    (vartab : List Variable) :
    ∀ (gates : List (AcirArithGate F)) (cs cs2 : ConstraintSystem F),
      process_gates values vartab gates cs = some cs2 →
      cs2 = gates.foldl (claimed_gate_step values vartab) cs := by
  intro gates
  induction gates with
  | nil =>
    intro cs cs2 h
    rw [process_gates] at h
    cases h
    simp
  | cons gate rest ih =>
    intro cs cs2 h
    rw [process_gates] at h
    split at h
    · cases h
    · rename_i acc1 cs1 hm
      split at h
      · cases h
      · rename_i acc2 hadd
        obtain ⟨ha1, h2⟩ := process_mul_terms_spec values gate.mul_terms [] cs acc1 cs1 hm
        have hstep :
            enforce_constraint cs1 [((1 : F), Variable.one)]
              (acc2 ++ [(gate.constant_term, Variable.one)]) []
            = claimed_gate_step values vartab cs gate := by
          rw [process_add_terms_spec vartab gate.add_terms acc1 acc2 hadd, ha1, h2]
          simp [enforce_constraint, claimed_gate_step, List.append_assoc]
        rw [ih _ cs2 h, List.foldl_cons, hstep]

theorem claimed_fold_constraints_length {F : Type} [CommRing F]
    (values : List (ℕ × F)) (vartab : List Variable) :
    ∀ (gates : List (AcirArithGate F)) (cs : ConstraintSystem F),
      ((gates.foldl (claimed_gate_step values vartab) cs).constraints).length
        = cs.constraints.length + gates.length := by
  intro gates
  induction gates with
  | nil => intro cs; simp
  | cons gate rest ih =>
    intro cs
    rw [List.foldl_cons, ih]
    simp [claimed_gate_step]
    omega

/-- Claim C1: whenever generate_constraints returns Ok, the gate-emission
pass transformed the constraint system produced by the allocation pass by
exactly the per-gate step the claim describes: per gate a single constraint
of the form One times accumulator equals zero, whose accumulator is, in
order, coefficient times a fresh auxiliary witness seeded with the numeric
product of the bound operand values for each multiplication term, then
coefficient times the recorded handle for each linear term, then the constant
term times the fixed One variable; in particular exactly one constraint is
added per gate. -/
theorem generate_constraints_claimed_shape {F : Type} [CommRing F]
    (circ : AcirCircuitSonobe F) (cs cs' : ConstraintSystem F)
    (h : generate_constraints circ cs = SynthOutcome.ok cs') :
    ∃ vartab cs1,
      allocate_witnesses circ.public_inputs circ.already_assigned_witnesses
        circ.values cs = .ok (vartab, cs1) ∧
      cs1.constraints = cs.constraints ∧
      cs' = circ.gates.foldl (claimed_gate_step circ.values vartab) cs1 ∧
      cs'.constraints.length = cs.constraints.length + circ.gates.length := by
  rw [generate_constraints] at h
  split at h
  · cases h
  · rename_i vartab cs1 halloc
    split at h
    · cases h
    · rename_i cs2 hgates
      cases h
      have hspec := process_gates_spec circ.values vartab circ.gates cs1 cs' hgates
      refine ⟨vartab, cs1, halloc, ?_, hspec, ?_⟩
      · exact (allocate_witnesses_ok_facts circ.public_inputs
          circ.already_assigned_witnesses circ.values cs vartab cs1 halloc).2
      · rw [hspec, claimed_fold_constraints_length,
          (allocate_witnesses_ok_facts circ.public_inputs
            circ.already_assigned_witnesses circ.values cs vartab cs1 halloc).2]

/-- Witness for claim C1: the concrete one-gate circuit with one
multiplication term and one linear term over the integers; the synthesized
system has the seeded products and the single claimed constraint. -/
theorem generate_constraints_claimed_shape_witness :
    ∃ vartab cs1,
      allocate_witnesses mul_example_circuit.public_inputs
        mul_example_circuit.already_assigned_witnesses mul_example_circuit.values
        (ConstraintSystem.new ℤ) = .ok (vartab, cs1) ∧
      cs1.constraints = (ConstraintSystem.new ℤ).constraints ∧
      (⟨[6, 7, 42],
        [([((1 : ℤ), Variable.one)],
          [((2 : ℤ), Variable.witness 2), ((3 : ℤ), Variable.witness 0),
           ((5 : ℤ), Variable.one)], [])]⟩ : ConstraintSystem ℤ)
        = mul_example_circuit.gates.foldl
            (claimed_gate_step mul_example_circuit.values vartab) cs1 ∧
      (⟨[6, 7, 42],
        [([((1 : ℤ), Variable.one)],
          [((2 : ℤ), Variable.witness 2), ((3 : ℤ), Variable.witness 0),
           ((5 : ℤ), Variable.one)], [])]⟩ : ConstraintSystem ℤ).constraints.length
        = (ConstraintSystem.new ℤ).constraints.length
            + mul_example_circuit.gates.length :=
  generate_constraints_claimed_shape mul_example_circuit (ConstraintSystem.new ℤ)
    ⟨[6, 7, 42],
     [([((1 : ℤ), Variable.one)],
       [((2 : ℤ), Variable.witness 2), ((3 : ℤ), Variable.witness 0),
        ((5 : ℤ), Variable.one)], [])]⟩ (by decide)

/-- Witness for claim C5: the bridge whose only alias entry is a constant
FpVar makes generate_constraints return the Unsatisfiable error, and the
bridge whose alias entry is an allocated variable resolves witness index zero
to that handle while allocating a fresh variable only for the non-aliased
index one. -/
theorem alias_resolution_witness :
    generate_constraints constant_alias_circuit (ConstraintSystem.new ℤ)
      = SynthOutcome.err SynthesisError.Unsatisfiable ∧
    (∃ vars cs1,
      allocate_witnesses var_alias_circuit.public_inputs
        var_alias_circuit.already_assigned_witnesses var_alias_circuit.values
        (ConstraintSystem.new ℤ) = .ok (vars, cs1) ∧
      vars.length = var_alias_circuit.values.length ∧
      cs1.witness_assignment.length
        = (ConstraintSystem.new ℤ).witness_assignment.length +
          (var_alias_circuit.values.filter
            (fun e =>
              (alist_find e.1 var_alias_circuit.already_assigned_witnesses).isNone)).length ∧
      (∀ (j i : ℕ) (val : ℤ) (v : Variable),
        var_alias_circuit.values[j]? = some (i, val) →
        alist_find i var_alias_circuit.already_assigned_witnesses
          = some (FpVar.Var v) →
        vars[j]? = some v)) := by
  constructor
  · exact (alias_resolution constant_alias_circuit (ConstraintSystem.new ℤ)).1
      ⟨(0, 4), by decide, 4, by decide⟩
  · refine (alias_resolution var_alias_circuit (ConstraintSystem.new ℤ)).2 ?_
    intro e he fv hfv
    simp [var_alias_circuit] at he
    rcases he with rfl | rfl
    · simp [var_alias_circuit, alist_find] at hfv
      exact ⟨Variable.witness 17, hfv.symm⟩
    · simp [var_alias_circuit, alist_find] at hfv

/-- Claim C6: for the one-gate circuit asserting the difference of the two
bound values is zero, synthesis always succeeds with the explicit constraint
system shown, and that system is satisfied exactly when the two bound values
are equal. -/
theorem equality_gate_satisfiability {F : Type} [CommRing F] (va vb : F) :
    generate_constraints (equality_circuit va vb) (ConstraintSystem.new F)
      = SynthOutcome.ok
          ⟨[va, vb],
           [([((1 : F), Variable.one)],
             [((1 : F), Variable.witness 0), ((-1 : F), Variable.witness 1),
              ((0 : F), Variable.one)], [])]⟩
    ∧ (is_satisfied
        (⟨[va, vb],
          [([((1 : F), Variable.one)],
            [((1 : F), Variable.witness 0), ((-1 : F), Variable.witness 1),
             ((0 : F), Variable.one)], [])]⟩ : ConstraintSystem F)
        ↔ va = vb) := by
  constructor
  · rfl
  · simp [is_satisfied, eval_lincomb, eval_variable]
    exact add_neg_eq_zero

theorem process_mul_terms_total {F : Type} [CommRing F] (values : List (ℕ × F)) :
    ∀ (ms : List (F × ℕ × ℕ)) (acc : LinearCombination F)
      (cs : ConstraintSystem F),
      (∀ t ∈ ms, (alist_find t.2.1 values).isSome ∧ (alist_find t.2.2 values).isSome) →
      ∃ lc cs', process_mul_terms values ms acc cs = some (lc, cs') := by
  intro ms
  induction ms with
  | nil =>
    intro acc cs _
    exact ⟨acc, cs, by rw [process_mul_terms]⟩
  | cons t rest ih =>
    intro acc cs hsome
    obtain ⟨lv, hl⟩ := Option.isSome_iff_exists.mp (hsome t (by simp)).1
    obtain ⟨rv, hr⟩ := Option.isSome_iff_exists.mp (hsome t (by simp)).2
    obtain ⟨lc, cs', hrec⟩ :=
      ih (acc ++ [(t.1, Variable.witness cs.witness_assignment.length)])
        ⟨cs.witness_assignment ++ [lv * rv], cs.constraints⟩
        (fun x hx => hsome x (List.mem_cons_of_mem t hx))
    exact ⟨lc, cs', by rw [process_mul_terms_cons_some hl hr, hrec]⟩

theorem process_add_terms_total {F : Type} (vartab : List Variable) :
    ∀ (ts : List (F × ℕ)) (acc : LinearCombination F),
      (∀ t ∈ ts, t.2 < vartab.length) →
      ∃ lc, process_add_terms vartab ts acc = some lc := by
  intro ts
  induction ts with
  | nil => intro acc _; exact ⟨acc, by rw [process_add_terms]⟩
  | cons t rest ih =>
    intro acc hlt
    have hb : t.2 < vartab.length := hlt t (by simp)
    obtain ⟨v, hv⟩ : ∃ v, vartab[t.2]? = some v :=
      ⟨vartab.get ⟨t.2, hb⟩, List.getElem?_eq_getElem hb⟩
    obtain ⟨lc, hrec⟩ :=
      ih (acc ++ [(t.1, v)])
        (fun x hx => hlt x (List.mem_cons_of_mem t hx))
    exact ⟨lc, by rw [process_add_terms_cons_some hv, hrec]⟩

theorem process_gates_total {F : Type} [CommRing F] (values : List (ℕ × F))
    (vartab : List Variable) :
    ∀ (gates : List (AcirArithGate F)) (cs : ConstraintSystem F),
      (∀ g ∈ gates,
        (∀ t ∈ g.mul_terms,
          (alist_find t.2.1 values).isSome ∧ (alist_find t.2.2 values).isSome) ∧
        (∀ t ∈ g.add_terms, t.2 < vartab.length)) →
      ∃ cs2, process_gates values vartab gates cs = some cs2 := by
  intro gates
  induction gates with
  | nil => intro cs _; exact ⟨cs, by rw [process_gates]⟩
  | cons gate rest ih =>
    intro cs hok
    obtain ⟨lc, cs1, hm⟩ := process_mul_terms_total values gate.mul_terms [] cs
      (hok gate (by simp)).1
    obtain ⟨lc2, hadd⟩ := process_add_terms_total vartab gate.add_terms lc
      (hok gate (by simp)).2
    obtain ⟨cs2, hrec⟩ :=
      ih (enforce_constraint cs1 [((1 : F), Variable.one)]
            (lc2 ++ [(gate.constant_term, Variable.one)]) [])
        (fun g hg => hok g (List.mem_cons_of_mem gate hg))
    refine ⟨cs2, ?_⟩
    rw [process_gates]
    simp only [hm, hadd]
    exact hrec

/-- Claim C10: under the precondition that the values table is keyed exactly
by the witness indices below its length and that every witness referenced by
a multiplication or linear term of any gate lies below that length, all the
unguarded lookups of the gate-emission pass succeed and generate_constraints
cannot reach a panic; and for the concrete bridge whose gate references
witness index five while only index zero is bound, generate_constraints
panics instead of returning an error. -/
theorem indexing_panic_behavior :
    (∀ (F : Type) [CommRing F] (circ : AcirCircuitSonobe F)
        (cs : ConstraintSystem F),
      circ.values.map Prod.fst = List.range circ.values.length →
      (∀ g ∈ circ.gates,
        (∀ t ∈ g.mul_terms,
          t.2.1 < circ.values.length ∧ t.2.2 < circ.values.length) ∧
        (∀ t ∈ g.add_terms, t.2 < circ.values.length)) →
      generate_constraints circ cs ≠ SynthOutcome.panicked)
    ∧ generate_constraints out_of_range_circuit (ConstraintSystem.new ℤ)
        = SynthOutcome.panicked := by
  constructor
  · intro F _ circ cs hkeys href hcontra
    rw [generate_constraints] at hcontra
    split at hcontra
    · cases hcontra
    · rename_i vartab cs1 halloc
      split at hcontra
      · rename_i hnone
        have hlen : vartab.length = circ.values.length :=
          (allocate_witnesses_ok_facts circ.public_inputs
            circ.already_assigned_witnesses circ.values cs vartab cs1 halloc).1
        have hmem : ∀ (k : ℕ), k < circ.values.length →
            (alist_find k circ.values).isSome := by
          intro k hk
          refine alist_find_isSome_of_mem_keys ?_
          rw [hkeys]
          exact List.mem_range.mpr hk
        obtain ⟨cs2, hsome⟩ := process_gates_total circ.values vartab circ.gates cs1
          (fun g hg =>
            ⟨fun t ht => ⟨hmem t.2.1 ((href g hg).1 t ht).1,
                          hmem t.2.2 ((href g hg).1 t ht).2⟩,
             fun t ht => by rw [hlen]; exact (href g hg).2 t ht⟩)
        rw [hsome] at hnone
        cases hnone
      · cases hcontra
  · decide

/-- Witness for claim C10: the concrete in-range circuit satisfies the
precondition and its synthesis does not panic. -/
theorem indexing_panic_behavior_witness :
    generate_constraints mul_example_circuit (ConstraintSystem.new ℤ)
      ≠ SynthOutcome.panicked :=
  indexing_panic_behavior.1 ℤ mul_example_circuit (ConstraintSystem.new ℤ)
    (by decide) (by decide)

end ArkworksBackend
